import Mathlib

/-!
Verification of the map-plotting modules of the gist-geckos repository.

The two source files embedded here are
`gistPipeline/plotting/gistPlot_kin.py` (kinematics maps, `plotMaps`) and
`gistPipeline/gistModules/gistPlot_gandalf.py` (emission-line maps,
`plot_line` / `plot_maps`).

Modelling conventions:
* Python floats are modelled by `ℚ`; a float that may be NaN is `Option ℚ`
  with `none` playing the role of `np.nan`.  NumPy comparison semantics
  (`nan < t` is false, `nan == -1` is false) are made explicit at each use.
* Python strings (interactive responses) are modelled by `List Char`;
  `String` is avoided because its operations do not reduce in the kernel.
* A Python run that raises an unhandled exception is modelled by
  `Except PyErr`, with `PyErr` naming the exception class that is raised.
-/

set_option linter.unusedVariables false

/-- Unhandled Python exceptions that the embedded code can raise:
`nameErr` models `NameError` (reference to an unbound name),
`valueErr` models `ValueError` (e.g. `float()` applied to a non-numeric
string, or a NumPy broadcast mismatch), `indexErr` models `IndexError`. -/
inductive PyErr where
  | nameErr
  | valueErr
  | indexErr
deriving DecidableEq

/-- Python strings are modelled as lists of characters. -/
abbrev PyStr := List Char

/-- Model of Python `str.split(sep)` for a single-character separator:
splitting the empty string yields `[[]]` (Python: `[""]`). -/
def splitOnChar (sep : Char) : PyStr → List PyStr
  | [] => [[]]
  | c :: rest =>
    let r := splitOnChar sep rest
    if c = sep then [] :: r
    else
      match r with
      | [] => [[c]]
      | h :: t => (c :: h) :: t

/-- Reads a (possibly empty) string of decimal digits as a natural number;
`none` as soon as a non-digit character occurs. -/
def digitsToNat (cs : PyStr) : Option ℕ :=
  cs.foldl
    (fun acc c =>
      match acc with
      | none => none
      | some n => if c.isDigit then some (n * 10 + (c.toNat - 48)) else none)
    (some 0)

/-- Modelled from the builtin Python `float(s)` (external to the repository),
restricted to plain decimal literals: an optional sign followed by digits
with an optional decimal point (at least one digit overall).  Exponents,
`inf`/`nan` spellings and underscores are not modelled; the interactive
prompts of the plotting modules expect plain decimal entries. -/
def pyFloat (cs : PyStr) : Option ℚ :=
  let signBody : Bool × PyStr :=
    match cs with
    | c :: rest =>
      if c = '-' then (true, rest) else if c = '+' then (false, rest) else (false, cs)
    | [] => (false, [])
  let neg := signBody.1
  let body := signBody.2
  match splitOnChar '.' body with
  | [ip] =>
    if ip = [] then none
    else (digitsToNat ip).map (fun n => if neg then -(n : ℚ) else (n : ℚ))
  | [ip, fp] =>
    if ip = [] ∧ fp = [] then none
    else
      match digitsToNat ip, digitsToNat fp with
      | some a, some b =>
        let q : ℚ := (a : ℚ) + (b : ℚ) / 10 ^ fp.length
        some (if neg then -q else q)
      | _, _ => none
  | _ => none

deriving instance DecidableEq for Except

/-- NumPy comparison `a < t` on a possibly-NaN value: false when `a` is NaN. -/
def nanLtB (a : Option ℚ) (t : ℚ) : Bool :=
  match a with
  | some x => decide (x < t)
  | none => false

/-- Model of `np.nanmin`: least valid value, or NaN when no value is valid. -/
def nanminQ (l : List (Option ℚ)) : Option ℚ :=
  match l.filterMap id with
  | [] => none
  | x :: xs => some (xs.foldl min x)

/-- Model of `np.nanmax`: greatest valid value, or NaN when no value is valid. -/
def nanmaxQ (l : List (Option ℚ)) : Option ℚ :=
  match l.filterMap id with
  | [] => none
  | x :: xs => some (xs.foldl max x)

/-- Embeds the interactive vmin,vmax prompt handling of both renderers
(`gistPlot_kin.py` lines 127-136, `gistPlot_gandalf.py` lines 96-105):
an empty response keeps the previously stored pair, any other response is
split on a comma and its first two parts are passed to `float`; a parse
failure is an unhandled `ValueError`, a missing second part an unhandled
`IndexError`.  Returns the (vmin, vmax) used for display together with the
updated stored pair. -/
def vminmaxPrompt (inp : PyStr) (prev : ℚ × ℚ) :
    Except PyErr ((ℚ × ℚ) × (ℚ × ℚ)) :=
  if inp = [] then .ok ((prev.1, prev.2), prev)
  else
    let parts := splitOnChar ',' inp
    match pyFloat (parts.getD 0 []) with
    | none => .error .valueErr
    | some vmin =>
      match parts[1]? with
      | none => .error .indexErr
      | some p1 =>
        match pyFloat p1 with
        | none => .error .valueErr
        | some vmax => .ok ((vmin, vmax), (vmin, vmax))

/-- Embeds the vmin/vmax selection of one quantity pass
(`gistPlot_kin.py` lines 121-145, `gistPlot_gandalf.py` lines 90-114).
Interactive mode defers to the prompt; otherwise automatic mode
(`SAVE_AFTER_INTERACTIVE = false`) takes `np.nanmin`/`np.nanmax` of the
current values and replay mode (`SAVE_AFTER_INTERACTIVE = true`) takes the
stored pair verbatim.  Returns the (vmin, vmax) used for display (possibly
NaN in automatic mode) and the updated stored pair. -/
def selectVminmax (INTERACTIVE SAVE_AFTER_INTERACTIVE : Bool) (inp : PyStr)
    (prev : ℚ × ℚ) (val : List (Option ℚ)) :
    Except PyErr ((Option ℚ × Option ℚ) × (ℚ × ℚ)) :=
  if INTERACTIVE then
    match vminmaxPrompt inp prev with
    | .ok (used, st) => .ok ((some used.1, some used.2), st)
    | .error e => .error e
  else
    if SAVE_AFTER_INTERACTIVE = false then
      .ok ((nanminQ val, nanmaxQ val), prev)
    else
      .ok ((some prev.1, some prev.2), prev)

/-- Embeds the contour-offset selection of `gistPlot_gandalf.py` `plot_line`
(lines 74-79): interactively the prompt defaults to the constant `0.20`,
non-interactively the offset is the constant `0.20`; the
`contour_offset_saved` argument of `plot_line` is never consulted. -/
def gandalfContourOffset (INTERACTIVE : Bool) (resp : PyStr)
    (contour_offset_saved : ℚ) : Except PyErr ℚ :=
  if INTERACTIVE then
    if resp = [] then .ok (1/5)
    else
      match pyFloat resp with
      | some x => .ok x
      | none => .error .valueErr
  else .ok (1/5)

/-- Embeds the contour-offset selection of `gistPlot_kin.py` `plotMaps`
(lines 110-115): interactively the prompt defaults to
`contour_offset_saved`, non-interactively `contour_offset_saved` is used
directly.  The offset is chosen once, before the loop over the four
quantities, so all four panels share it. -/
def kinContourOffset (INTERACTIVE : Bool) (resp : PyStr)
    (contour_offset_saved : ℚ) : Except PyErr ℚ :=
  if INTERACTIVE then
    if resp = [] then .ok contour_offset_saved
    else
      match pyFloat resp with
      | some x => .ok x
      | none => .error .valueErr
  else .ok contour_offset_saved

/-- Outcome of one rendering pass at its end: either the function calls
itself again with new `INTERACTIVE`/`SAVE_AFTER_INTERACTIVE` flags and the
carried calibration state, or it saves the figure and terminates. -/
inductive PassOutcome where
  | loopAgain (INTERACTIVE SAVE_AFTER_INTERACTIVE : Bool)
      (vminmax : List (ℚ × ℚ)) (contour_offset : ℚ)
  | saved (vminmax : List (ℚ × ℚ)) (contour_offset : ℚ)
deriving DecidableEq

/-- The accept family of responses checked at the save prompt. -/
def acceptFamily (inp : PyStr) : Bool :=
  inp = [ 'y' ] || inp = [ 'Y' ] || inp = [ 'y', 'e', 's' ] || inp = [ 'Y', 'E', 'S' ]

/-- The reject family of responses checked at the save prompt. -/
def rejectFamily (inp : PyStr) : Bool :=
  inp = [ 'n' ] || inp = [ 'N' ] || inp = [ 'n', 'o' ] || inp = [ 'N', 'O' ]

/-- Embeds the tail of a rendering pass (`gistPlot_kin.py` lines 210-237,
`gistPlot_gandalf.py` lines 187-214): in interactive mode the save prompt
is read and the function recurses (accept: non-interactive replay pass;
reject or anything else: interactive pass again), carrying the current
vminmax state and contour offset; in non-interactive mode the figure is
saved and the function terminates without reading any response. -/
def decideSavePrompt (INTERACTIVE : Bool) (inp : PyStr)
    (vminmax : List (ℚ × ℚ)) (contour_offset : ℚ) : PassOutcome :=
  if INTERACTIVE then
    if acceptFamily inp then .loopAgain false true vminmax contour_offset
    else if rejectFamily inp then .loopAgain true false vminmax contour_offset
    else .loopAgain true false vminmax contour_offset
  else .saved vminmax contour_offset

/-- Embeds the AoN thresholding of `gistPlot_gandalf.py` `plot_maps`
(lines 284-290).  The source loops over the emission-line columns and, for
each column, sets the rows with `AoN < threshold` to NaN; the effect on
each entry `(sample, line)` is as written here.  A NaN significance never
satisfies `< threshold` (NumPy comparison), so such entries are kept. -/
def applyAoNThreshold (T : ℚ) (AoN q : List (List (Option ℚ))) :
    List (List (Option ℚ)) :=
  List.zipWith
    (fun arow qrow =>
      List.zipWith (fun a v => if nanLtB a T then none else v) arow qrow)
    AoN q

/-- Embeds the sentinel masking of `gistPlot_gandalf.py` `plot_maps`
(lines 292-295), e.g. `gandalf_Flux[np.where(gandalf_Flux == -1)[0]] = np.nan`:
`np.where` on a 2-D array yields a pair of index arrays and `[0]` keeps
only the row (sample) indices, so the assignment overwrites the whole row
of every sample that has at least one entry equal to -1. -/
def sentinelRowMask (q : List (List (Option ℚ))) : List (List (Option ℚ)) :=
  q.map
    (fun row =>
      if some (-1 : ℚ) ∈ row then row.map (fun _ => (none : Option ℚ)) else row)

/-- The full quality filter of `gistPlot_gandalf.py` `plot_maps`
(lines 284-295) on the four per-quantity matrices (rows = samples,
columns = emission lines): AoN thresholding followed by sentinel row
masking, applied to each quantity independently. -/
def gandalfQualityFilter (T : ℚ) (AoN Flux Ampl Vel Sigma : List (List (Option ℚ))) :
    List (List (Option ℚ)) × List (List (Option ℚ)) ×
      List (List (Option ℚ)) × List (List (Option ℚ)) :=
  (sentinelRowMask (applyAoNThreshold T AoN Flux),
   sentinelRowMask (applyAoNThreshold T AoN Ampl),
   sentinelRowMask (applyAoNThreshold T AoN Vel),
   sentinelRowMask (applyAoNThreshold T AoN Sigma))

/-- The valid (non-NaN) values of an array, sorted ascending — the first
step of `np.nanmedian`. -/
def sortedValid (l : List (Option ℚ)) : List ℚ :=
  List.insertionSort (· ≤ ·) (l.filterMap id)

/-- Model of `np.nanmedian`: the valid values are sorted ascending; an odd
count yields the middle value, an even positive count the mean of the two
middle values, and no valid value yields NaN. -/
def nanmedianQ (l : List (Option ℚ)) : Option ℚ :=
  if (sortedValid l).length = 0 then none
  else if (sortedValid l).length % 2 = 1 then
    (sortedValid l)[(sortedValid l).length / 2]?
  else
    match (sortedValid l)[(sortedValid l).length / 2 - 1]?,
        (sortedValid l)[(sortedValid l).length / 2]? with
    | some a, some b => some ((a + b) / 2)
    | _, _ => none

/-- Embeds `gandalf_Vel = gandalf_Vel - np.nanmedian(gandalf_Vel)`
(`gistPlot_gandalf.py` line 297): the median is taken over all entries of
the 2-D velocity matrix, ignoring NaNs, and subtracted from every entry;
if no entry is valid the median is NaN and every entry becomes NaN. -/
def recenterVel2D (Vel : List (List (Option ℚ))) : List (List (Option ℚ)) :=
  match nanmedianQ Vel.flatten with
  | none => Vel.map (fun row => row.map (fun _ => (none : Option ℚ)))
  | some m => Vel.map (fun row => row.map (Option.map (fun x => x - m)))

/-- Embeds `result[:,0] = result[:,0] - np.nanmedian(result[:,0])`
(`gistPlot_kin.py` line 97) on one column vector. -/
def recenterVel1D (v : List (Option ℚ)) : List (Option ℚ) :=
  match nanmedianQ v with
  | none => v.map (fun _ => (none : Option ℚ))
  | some m => v.map (Option.map (fun x => x - m))

/-- The recentering stage of `gistPlot_gandalf.py` `plot_maps` (line 297):
only the velocity matrix is reassigned; dispersion, flux and amplitude
pass through unchanged. -/
def gandalfRecenterStage (Vel Sigma Flux Ampl : List (List (Option ℚ))) :
    List (List (Option ℚ)) × List (List (Option ℚ)) ×
      List (List (Option ℚ)) × List (List (Option ℚ)) :=
  (recenterVel2D Vel, Sigma, Flux, Ampl)

/-- The recentering stage of `gistPlot_kin.py` `plotMaps` (line 97) on the
four result columns (V, SIGMA, H3, H4): only column 0 is reassigned. -/
def kinRecenterStage (c0 c1 c2 c3 : List (Option ℚ)) :
    List (Option ℚ) × List (Option ℚ) × List (Option ℚ) × List (Option ℚ) :=
  (recenterVel1D c0, c1, c2, c3)

/-- Embeds the bin-expansion loops (`gistPlot_kin.py` lines 92-96,
`gistPlot_gandalf.py` lines 251-268) for one quantity: the long array
starts as all-NaN; for each index `i` into the unique-bin list, every
sample whose absolute bin id equals `ubins[i]` receives `compressed[i]`. -/
def expandStep (binNum ubins : List ℤ) (compressed : List ℚ)
    (acc : List (Option ℚ)) (i : ℕ) : List (Option ℚ) :=
  match ubins[i]?, compressed[i]? with
  | some u, some c =>
    List.zipWith (fun b cur => if (b.natAbs : ℤ) = u then some c else cur)
      binNum acc
  | _, _ => acc

/-- The full bin-expansion loop (see `expandStep`): fold the per-bin
assignment over all indices into the unique-bin list, starting from the
all-NaN long array. -/
def expandBins (ubins : List ℤ) (compressed : List ℚ) (binNum : List ℤ) :
    List (Option ℚ) :=
  (List.range ubins.length).foldl (expandStep binNum ubins compressed)
    (binNum.map (fun _ => (none : Option ℚ)))

/-- Floor of a rational, written with integer division so that it reduces
in the kernel (`q.den` is positive, so `Int` division is floor division). -/
def qfloor (q : ℚ) : ℤ := q.num / (q.den : ℤ)

/-- Modelled from `np.round` (external to the repository): round to the
nearest integer, ties to the nearest even integer, phrased in integer
arithmetic on the reduced fraction: with `f = ⌊q⌋`, the fractional part
`q - f` is below, above or equal to 1/2 according as `2 (num - f den)` is
below, above or equal to `den`. -/
def npRound (q : ℚ) : ℤ :=
  let f := qfloor q
  let twice := 2 * (q.num - f * (q.den : ℤ))
  if twice < (q.den : ℤ) then f
  else if (q.den : ℤ) < twice then f + 1
  else if f % 2 = 0 then f else f + 1

/-- Least element of a list of rationals (`np.nanmin` of an all-finite
array); 0 for the empty list, which the sources never query. -/
def listMinQ : List ℚ → ℚ
  | [] => 0
  | x :: xs => xs.foldl min x

/-- Greatest element of a list of rationals (`np.nanmax` of an all-finite
array); 0 for the empty list, which the sources never query. -/
def listMaxQ : List ℚ → ℚ
  | [] => 0
  | x :: xs => xs.foldl max x

/-- Pixel count along one axis (`gistPlot_kin.py` lines 148-151,
`gistPlot_gandalf.py` lines 117-120): the coordinate extent is padded by 6
units on each side and divided by the pixel size. -/
def npixels (C : List ℚ) (P : ℚ) : ℤ :=
  npRound ((listMaxQ C + 6 - (listMinQ C - 6)) / P) + 1

/-- Pixel index of one coordinate (`gistPlot_kin.py` lines 152-153,
`gistPlot_gandalf.py` lines 121-122). -/
def pixIndex (C : List ℚ) (P : ℚ) (c : ℚ) : ℤ :=
  npRound ((c - (listMinQ C - 6)) / P)

/-- Embeds the rasterization `image = np.full(...); image[i,j] = val`
(`gistPlot_kin.py` lines 154-155, `gistPlot_gandalf.py` lines 123-124):
the grid starts all-NaN and each sample in order writes its value at its
pixel index, so on collision the last write wins.  The grid is modelled as
a total function on `ℤ × ℤ`; cells never written stay NaN. -/
def rasterize (X Y : List ℚ) (val : List (Option ℚ)) (P : ℚ) :
    ℤ → ℤ → Option ℚ :=
  (List.zip (List.zip X Y) val).foldl
    (fun g t a b =>
      if a = pixIndex X P t.1.1 ∧ b = pixIndex Y P t.1.2 then t.2 else g a b)
    (fun _ _ => none)

/-- Result of one per-quantity rendering step: either the quantity was
skipped before rasterization, or a panel was rendered with the given
display range and image. -/
inductive RenderOutcome where
  | skipped
  | rendered (vminmax : Option ℚ × Option ℚ) (image : ℤ → ℤ → Option ℚ)

/-- Embeds the per-quantity core of `gistPlot_gandalf.py` `plot_line`
(lines 87-124): if every value is NaN the function returns `None` before
any range selection or rasterization (lines 87-88); otherwise the display
range is selected and the values are rasterized. -/
def gandalfRenderQuantity (INTERACTIVE SAVE_AFTER_INTERACTIVE : Bool)
    (inp : PyStr) (prev : ℚ × ℚ) (val : List (Option ℚ)) (X Y : List ℚ)
    (P : ℚ) : Except PyErr RenderOutcome :=
  if (val.filter (fun v => v.isNone)).length = val.length then .ok .skipped
  else
    match selectVminmax INTERACTIVE SAVE_AFTER_INTERACTIVE inp prev val with
    | .error e => .error e
    | .ok (used, _st) => .ok (.rendered used (rasterize X Y val P))

/-- Embeds the per-quantity loop body of `gistPlot_kin.py` `plotMaps`
(lines 117-160): the display range is selected and the values are
rasterized; there is no all-NaN check, so an all-missing quantity is
rasterized like any other. -/
def kinRenderQuantity (INTERACTIVE SAVE_AFTER_INTERACTIVE : Bool)
    (inp : PyStr) (prev : ℚ × ℚ) (val : List (Option ℚ)) (X Y : List ℚ)
    (P : ℚ) : Except PyErr RenderOutcome :=
  match selectVminmax INTERACTIVE SAVE_AFTER_INTERACTIVE inp prev val with
  | .error e => .error e
  | .ok (used, _st) => .ok (.rendered used (rasterize X Y val P))

/-- Model of `np.unique(np.abs(l))`: the distinct absolute values, sorted
ascending. -/
def pyUniqueAbs (l : List ℤ) : List ℤ :=
  (List.insertionSort (· ≤ ·) (l.map (fun z => (z.natAbs : ℤ)))).dedup

/-- The in-memory shape of the `*_table.fits` bin table consumed by
`plotMaps` (`gistPlot_kin.py` lines 65-72). -/
structure KinTable where
  X : List ℚ
  Y : List ℚ
  FLUX : List ℚ
  BIN_ID : List ℤ
  PIXSIZE : ℚ

/-- The in-memory shape of the per-unique-bin kinematics results table
(`gistPlot_kin.py` lines 80-89); only the columns the code reads before it
fails are modelled. -/
structure KinFits where
  V : List ℚ
  SIGMA : List ℚ

/-- Embeds `gistPlot_kin.py` `plotMaps` from its start to line 88.  The
file reads are modelled as the already-loaded in-memory tables.  Lines
66-72 select the samples inside the field of view and read the columns;
lines 85-87 fill the result matrix, which requires the per-unique-bin
columns to match the unique-bin count (a mismatch is a NumPy broadcast
`ValueError`); line 88 then evaluates `hasattr` on `ppxf`, and `ppxf`
is bound nowhere in the module, so the reference raises `NameError`
before any figure is created, rendered or saved. -/
def plotMapsModel (flag : Bool) (tbl : KinTable) (fits : KinFits) :
    Except PyErr Unit :=
  let idx_inside := (List.range tbl.BIN_ID.length).filter
    (fun s => 0 ≤ tbl.BIN_ID.getD s 0)
  let X := idx_inside.map (fun s => tbl.X.getD s 0 * (-1))
  let Y := idx_inside.map (fun s => tbl.Y.getD s 0)
  let FLUX := idx_inside.map (fun s => tbl.FLUX.getD s 0)
  let binNum_long := idx_inside.map (fun s => tbl.BIN_ID.getD s 0)
  let ubins := pyUniqueAbs tbl.BIN_ID
  let pixelsize := tbl.PIXSIZE
  if fits.V.length ≠ ubins.length then .error .valueErr
  else if fits.SIGMA.length ≠ ubins.length then .error .valueErr
  else .error .nameErr

/-- Entry of a matrix (list of rows) at row `i`, column `j`, as an
`Option` of the possibly-NaN cell value. -/
def entry (m : List (List (Option ℚ))) (i j : ℕ) : Option (Option ℚ) :=
  (m[i]?).bind (fun row => row[j]?)

/-- The sentinel filter as the specification words it (element-wise: only
the entries themselves equal to -1 become missing), stated here only to be
compared against the row-wise behavior of the code (`sentinelRowMask`
composed with `applyAoNThreshold`). -/
def specElementwiseFilter (T : ℚ) (AoN q : List (List (Option ℚ))) :
    List (List (Option ℚ)) :=
  List.zipWith
    (fun arow qrow =>
      List.zipWith
        (fun a v =>
          if nanLtB a T then none else if v = some (-1 : ℚ) then none else v)
        arow qrow)
    AoN q

/-- C1: for every invocation of the kinematics map renderer `plotMaps`
(any flag, any input tables whose per-unique-bin result columns match the
unique-bin count, so that the earlier column assignments broadcast),
execution reaches the reference to the unbound name `ppxf` at line 88
while reading the per-bin results, so the function raises an unhandled
`NameError` and never renders or saves any kinematics figure. -/
theorem c1_kin_plotMaps_always_nameErr (flag : Bool) (tbl : KinTable)
    (fits : KinFits)
    (hV : fits.V.length = (pyUniqueAbs tbl.BIN_ID).length)
    (hS : fits.SIGMA.length = (pyUniqueAbs tbl.BIN_ID).length) :
    plotMapsModel flag tbl fits = .error .nameErr := by
  unfold plotMapsModel
  simp [hV, hS]

/-- Witness for C1 at a concrete one-sample table. -/
theorem c1_kin_plotMaps_always_nameErr_witness :
    (KinFits.mk [1] [1]).V.length
        = (pyUniqueAbs (KinTable.mk [1] [2] [3] [0] 1).BIN_ID).length
    ∧ plotMapsModel true (KinTable.mk [1] [2] [3] [0] 1) (KinFits.mk [1] [1])
        = .error .nameErr :=
  ⟨by decide,
   c1_kin_plotMaps_always_nameErr true (KinTable.mk [1] [2] [3] [0] 1)
     (KinFits.mk [1] [1]) (by decide) (by decide)⟩

/-- C3 as stated is false on the emission-line renderer `plot_line`: in
the non-interactive save pass after acceptance the contour offset is the
constant 0.20, not the previously committed offset (here 1). -/
theorem c3_gandalf_offset_ignores_saved_counterexample :
    gandalfContourOffset false [] 1 = .ok (1/5) ∧ ((1 : ℚ)/5) ≠ 1 :=
  ⟨rfl, by norm_num⟩

/-- C3 amended: only the kinematics renderer `plotMaps` calibrates the
(per-figure, shared) contour offset like the (vmin, vmax) pairs — its
interactive prompt defaults to the previously chosen offset and its
replay/save pass reuses the committed offset.  The emission-line renderer
`plot_line` instead defaults the interactive prompt to the constant 0.20
and uses the constant 0.20 in every non-interactive pass, ignoring the
saved offset. -/
theorem c3_contour_offset_calibration (resp : PyStr) (saved : ℚ) :
    kinContourOffset true [] saved = .ok saved
    ∧ kinContourOffset false resp saved = .ok saved
    ∧ gandalfContourOffset true [] saved = .ok (1/5)
    ∧ gandalfContourOffset false resp saved = .ok (1/5) :=
  ⟨rfl, rfl, rfl, rfl⟩

/-- C4 as stated is false: the non-empty malformed response "abc" to the
vmin,vmax prompt is passed to `float`, which raises an unhandled
`ValueError`; the loop does not recover. -/
theorem c4_malformed_input_crashes_counterexample :
    vminmaxPrompt [ 'a', 'b', 'c' ] (0, 0) = .error .valueErr := by
  decide

/-- C4 amended: a non-empty response to the vmin,vmax prompt whose first
comma-separated part is non-numeric raises an unhandled `ValueError`, one
with no second part raises an unhandled `IndexError`, and one with a
non-numeric second part raises an unhandled `ValueError`; the loop never
re-prompts on malformed input.  Only an empty response (keep previous) and
a response whose first two parts are numeric are handled. -/
theorem c4_malformed_input_error (inp : PyStr) (prev : ℚ × ℚ)
    (hne : inp ≠ []) :
    (pyFloat ((splitOnChar ',' inp)[0]?.getD []) = none →
        vminmaxPrompt inp prev = .error .valueErr)
    ∧ (∀ q, pyFloat ((splitOnChar ',' inp)[0]?.getD []) = some q →
        (splitOnChar ',' inp)[1]? = none →
        vminmaxPrompt inp prev = .error .indexErr)
    ∧ (∀ q p1, pyFloat ((splitOnChar ',' inp)[0]?.getD []) = some q →
        (splitOnChar ',' inp)[1]? = some p1 → pyFloat p1 = none →
        vminmaxPrompt inp prev = .error .valueErr)
    ∧ (∀ q p1 r, pyFloat ((splitOnChar ',' inp)[0]?.getD []) = some q →
        (splitOnChar ',' inp)[1]? = some p1 → pyFloat p1 = some r →
        vminmaxPrompt inp prev = .ok ((q, r), (q, r))) := by
  refine ⟨?_, ?_, ?_, ?_⟩
  · intro h
    simp [vminmaxPrompt, hne, h]
  · intro q hq h1
    simp [vminmaxPrompt, hne, hq, h1]
  · intro q p1 hq h1 hp
    simp [vminmaxPrompt, hne, hq, h1, hp]
  · intro q p1 r hq h1 hp
    simp [vminmaxPrompt, hne, hq, h1, hp]

/-- Witness for C4 (amended) at the concrete malformed response "abc". -/
theorem c4_malformed_input_error_witness :
    ([ 'a', 'b', 'c' ] : PyStr) ≠ []
    ∧ vminmaxPrompt [ 'a', 'b', 'c' ] (3, 4) = .error .valueErr :=
  ⟨by decide,
   (c4_malformed_input_error [ 'a', 'b', 'c' ] (3, 4) (by decide)).1 (by decide)⟩

/-- C5 as stated is false on the kinematics renderer `plotMaps`: its
per-quantity loop body has no all-missing check, so an all-missing value
array is rasterized into an (all-NaN) panel rather than skipped. -/
theorem c5_kin_renders_all_missing_counterexample :
    kinRenderQuantity false false [] (0, 0) [none] [0] [0] 1
      ≠ .ok .skipped := by
  intro h
  exact RenderOutcome.noConfusion (Except.ok.inj h)

/-- C5 amended: the emission-line renderer `plot_line` detects an
all-missing quantity before any range selection or rasterization and
returns without producing a figure; the kinematics renderer `plotMaps`
has no such check and rasterizes the all-missing quantity. -/
theorem c5_gandalf_skips_all_missing (INTERACTIVE SAVE_AFTER_INTERACTIVE : Bool)
    (inp : PyStr) (prev : ℚ × ℚ) (val : List (Option ℚ)) (X Y : List ℚ)
    (P : ℚ) (h : ∀ v ∈ val, v = none) :
    gandalfRenderQuantity INTERACTIVE SAVE_AFTER_INTERACTIVE inp prev val X Y P
      = .ok .skipped := by
  unfold gandalfRenderQuantity
  rw [if_pos]
  have hf : val.filter (fun v => v.isNone) = val :=
    List.filter_eq_self.mpr (fun v hv => by rw [h v hv]; rfl)
  rw [hf]

/-- Witness for C5 (amended) at a concrete all-missing value array. -/
theorem c5_gandalf_skips_all_missing_witness :
    (∀ v ∈ ([none, none] : List (Option ℚ)), v = none)
    ∧ gandalfRenderQuantity true false [] (0, 0) [none, none] [0] [0] 1
        = .ok .skipped :=
  ⟨by decide,
   c5_gandalf_skips_all_missing true false [] (0, 0) [none, none] [0] [0] 1
     (by decide)⟩

/-- C6: in replay mode (`INTERACTIVE = false`, `SAVE_AFTER_INTERACTIVE =
true`) the (vmin, vmax) used for display is the stored pair, identically
for every current value array; in automatic mode it is exactly
(`np.nanmin`, `np.nanmax`) of the current quantity's valid values. -/
theorem c6_replay_and_automatic_ranges (inp : PyStr) (prev : ℚ × ℚ)
    (val : List (Option ℚ)) :
    selectVminmax false true inp prev val
        = .ok ((some prev.1, some prev.2), prev)
    ∧ selectVminmax false false inp prev val
        = .ok ((nanminQ val, nanmaxQ val), prev) :=
  ⟨rfl, rfl⟩

/-- C7: at the save prompt, a response in the accept family triggers
exactly one further pass with `INTERACTIVE = false` and
`SAVE_AFTER_INTERACTIVE = true` reusing the just-confirmed state, and that
non-interactive pass saves and terminates without consuming any further
response; every other response re-enters calibration with `INTERACTIVE =
true` and `SAVE_AFTER_INTERACTIVE = false`, carrying the rejected state as
defaults, without erroring. -/
theorem c7_decide_prompt (inp : PyStr) (vm : List (ℚ × ℚ)) (co : ℚ) :
    (acceptFamily inp = true →
      decideSavePrompt true inp vm co = .loopAgain false true vm co
      ∧ ∀ inp2, decideSavePrompt false inp2 vm co = .saved vm co)
    ∧ (acceptFamily inp = false →
      decideSavePrompt true inp vm co = .loopAgain true false vm co) := by
  constructor
  · intro h
    refine ⟨by simp [decideSavePrompt, h], fun inp2 => rfl⟩
  · intro h
    by_cases hr : rejectFamily inp = true <;> simp [decideSavePrompt, h, hr]

/-- Witness for C7 at the concrete responses "y" (accept) and "x"
(unrecognized). -/
theorem c7_decide_prompt_witness :
    acceptFamily [ 'y' ] = true
    ∧ decideSavePrompt true [ 'y' ] [] 0 = .loopAgain false true [] 0
    ∧ decideSavePrompt false [ 'n' ] [] 0 = .saved [] 0
    ∧ acceptFamily [ 'x' ] = false
    ∧ decideSavePrompt true [ 'x' ] [] 0 = .loopAgain true false [] 0 :=
  ⟨by decide,
   ((c7_decide_prompt [ 'y' ] [] 0).1 (by decide)).1,
   ((c7_decide_prompt [ 'y' ] [] 0).1 (by decide)).2 [ 'n' ],
   by decide,
   (c7_decide_prompt [ 'x' ] [] 0).2 (by decide)⟩

/-- Access into a sentinel-masked row: a masked row reads NaN everywhere,
an unmasked row reads its own entry. -/
theorem sentinelRow_read (r : List (Option ℚ)) (j : ℕ) (hj : j < r.length) :
    (if some (-1 : ℚ) ∈ r then r.map (fun _ => (none : Option ℚ)) else r)[j]?
      = if some (-1 : ℚ) ∈ r then some none else some r[j] := by
  by_cases h : some (-1 : ℚ) ∈ r
  · simp [h, List.getElem?_map, List.getElem?_replicate, hj]
  · simp [h, List.getElem?_eq_getElem hj]

/-- C2 as stated is false: with threshold 4, one sample and two emission
lines, significance 5 on both lines and flux values (-1, 5), the code
masks the whole sample row, so the second line's flux — whose
significance passes the threshold and whose value is not the sentinel —
is set to missing as well, where the element-wise filter of the
specification would keep it. -/
theorem c2_sentinel_not_elementwise_counterexample :
    sentinelRowMask
        (applyAoNThreshold 4 [[some 5, some 5]] [[some (-1 : ℚ), some 5]])
      = [[none, none]]
    ∧ specElementwiseFilter 4 [[some 5, some 5]] [[some (-1 : ℚ), some 5]]
      = [[none, some 5]] := by
  constructor <;> decide

/-- C2 amended: after quality filtering, an entry whose significance is
below the threshold is missing, an entry originally equal to the sentinel
-1 is missing, and an entry whose significance passes the threshold and
whose value is not -1 is unchanged provided no entry of the same sample's
row of that quantity both passes the threshold and equals -1 — the
sentinel check masks whole sample rows of the matching quantity, not only
the matching entries. -/
theorem c2_quality_filter_rowwise (T : ℚ) (AoN q : List (List (Option ℚ)))
    (i j : ℕ) (hiA : i < AoN.length) (hiq : i < q.length)
    (hjA : j < AoN[i].length) (hjq : j < q[i].length)
    (hrl : AoN[i].length = q[i].length) :
    (nanLtB AoN[i][j] T = true →
      entry (sentinelRowMask (applyAoNThreshold T AoN q)) i j = some none)
    ∧ (q[i][j] = some (-1 : ℚ) →
      entry (sentinelRowMask (applyAoNThreshold T AoN q)) i j = some none)
    ∧ (nanLtB AoN[i][j] T = false →
       (∀ j2, (hj2 : j2 < q[i].length) →
          ¬(nanLtB AoN[i][j2] T = false ∧ q[i][j2] = some (-1 : ℚ))) →
      entry (sentinelRowMask (applyAoNThreshold T AoN q)) i j
        = some q[i][j]) := by
  have hithr : i < (applyAoNThreshold T AoN q).length := by
    simpa [applyAoNThreshold, List.length_zipWith] using lt_min hiA hiq
  have hrow : (applyAoNThreshold T AoN q)[i]
      = List.zipWith (fun a v => if nanLtB a T then none else v) AoN[i] q[i] := by
    simp [applyAoNThreshold, List.getElem_zipWith]
  have hrowlen : (applyAoNThreshold T AoN q)[i].length
      = min AoN[i].length q[i].length := by
    rw [hrow, List.length_zipWith]
  have hjthr : j < (applyAoNThreshold T AoN q)[i].length := by
    rw [hrowlen]; exact lt_min hjA hjq
  have hentry : entry (sentinelRowMask (applyAoNThreshold T AoN q)) i j
      = (if some (-1 : ℚ) ∈ (applyAoNThreshold T AoN q)[i] then some none
         else some ((applyAoNThreshold T AoN q)[i][j])) := by
    unfold entry sentinelRowMask
    rw [List.getElem?_map, List.getElem?_eq_getElem hithr]
    exact sentinelRow_read _ j hjthr
  have hcell : (applyAoNThreshold T AoN q)[i][j]
      = (if nanLtB AoN[i][j] T then none else q[i][j]) := by
    simp only [hrow]
    rw [List.getElem_zipWith]
  refine ⟨?_, ?_, ?_⟩
  · intro hlt
    rw [hentry]
    by_cases hmem : some (-1 : ℚ) ∈ (applyAoNThreshold T AoN q)[i]
    · rw [if_pos hmem]
    · rw [if_neg hmem, hcell, if_pos hlt]
  · intro hsent
    by_cases hlt : nanLtB AoN[i][j] T = true
    · rw [hentry]
      by_cases hmem : some (-1 : ℚ) ∈ (applyAoNThreshold T AoN q)[i]
      · rw [if_pos hmem]
      · rw [if_neg hmem, hcell, if_pos hlt]
    · have hmem : some (-1 : ℚ) ∈ (applyAoNThreshold T AoN q)[i] := by
        have : (applyAoNThreshold T AoN q)[i][j] = some (-1 : ℚ) := by
          rw [hcell, if_neg hlt]; exact hsent
        exact this ▸ List.getElem_mem hjthr
      rw [hentry, if_pos hmem]
  · intro hlt hnone
    have hmem : some (-1 : ℚ) ∉ (applyAoNThreshold T AoN q)[i] := by
      intro hmem
      obtain ⟨k, hk, hkval⟩ := List.mem_iff_getElem.mp hmem
      have hkq : k < q[i].length := by
        have := hrowlen ▸ hk; omega
      have hcellk : (applyAoNThreshold T AoN q)[i][k]
          = (if nanLtB AoN[i][k] T then none else q[i][k]) := by
        simp only [hrow]
        rw [List.getElem_zipWith]
      rw [hcellk] at hkval
      by_cases hltk : nanLtB AoN[i][k] T = true
      · rw [if_pos hltk] at hkval; exact Option.noConfusion hkval
      · rw [if_neg hltk] at hkval
        exact hnone k hkq ⟨Bool.eq_false_iff.mpr hltk, hkval⟩
    rw [hentry, if_neg hmem, hcell, hlt]
    simp

/-- Witness for C2 (amended) at a concrete input: one sample, two lines,
significances (5, 5), values (7, 5), threshold 4 — no sentinel in the
row, so the entry at line 1 is unchanged. -/
theorem c2_quality_filter_rowwise_witness :
    nanLtB (some (5 : ℚ)) 4 = false
    ∧ entry (sentinelRowMask
        (applyAoNThreshold 4 [[some 5, some 5]] [[some (7 : ℚ), some 5]])) 0 1
      = some (some 5) := by
  refine ⟨by decide, ?_⟩
  have h := c2_quality_filter_rowwise 4 [[some 5, some 5]]
    [[some (7 : ℚ), some 5]] 0 1 (by decide) (by decide) (by decide) (by decide)
    (by decide)
  exact h.2.2 (by decide) (by decide)

/-- One expansion step keeps the long array at the length of the sample
list. -/
theorem expandStep_length (binNum ubins : List ℤ) (compressed : List ℚ)
    (acc : List (Option ℚ)) (i : ℕ) (hacc : acc.length = binNum.length) :
    (expandStep binNum ubins compressed acc i).length = binNum.length := by
  unfold expandStep
  cases h1 : ubins[i]? <;> cases h2 : compressed[i]? <;>
    simp [List.length_zipWith, hacc]

/-- One expansion step leaves a sample unchanged when its absolute bin id
does not match the step's unique bin. -/
theorem expandStep_read_miss (binNum ubins : List ℤ) (compressed : List ℚ)
    (acc : List (Option ℚ)) (i s : ℕ) (hacc : acc.length = binNum.length)
    (hs : s < binNum.length)
    (h : ∀ (hi : i < ubins.length), ((binNum[s]).natAbs : ℤ) ≠ ubins[i]) :
    (expandStep binNum ubins compressed acc i)[s]? = acc[s]? := by
  unfold expandStep
  cases h1 : ubins[i]? with
  | none => cases h2 : compressed[i]? <;> simp
  | some u =>
    cases h2 : compressed[i]? with
    | none => simp
    | some c =>
      obtain ⟨hi, hu⟩ := List.getElem?_eq_some_iff.mp h1
      have hne := h hi
      rw [hu] at hne
      have hsacc : s < acc.length := by omega
      have hsz : s < (List.zipWith
          (fun b cur => if (b.natAbs : ℤ) = u then some c else cur)
          binNum acc).length := by
        simp [List.length_zipWith]; omega
      rw [List.getElem?_eq_getElem hsz, List.getElem?_eq_getElem hsacc,
        List.getElem_zipWith]
      rw [if_neg hne]

/-- One expansion step writes the compressed value of its unique bin at
every sample whose absolute bin id matches it. -/
theorem expandStep_read_hit (binNum ubins : List ℤ) (compressed : List ℚ)
    (acc : List (Option ℚ)) (k s : ℕ) (hacc : acc.length = binNum.length)
    (hs : s < binNum.length) (hk : k < ubins.length)
    (hclen : compressed.length = ubins.length)
    (hmatch : ((binNum[s]).natAbs : ℤ) = ubins[k]) :
    (expandStep binNum ubins compressed acc k)[s]? = some (some compressed[k]) := by
  unfold expandStep
  rw [List.getElem?_eq_getElem hk, List.getElem?_eq_getElem (show k < compressed.length by omega)]
  have hsz : s < (List.zipWith
      (fun b cur => if (b.natAbs : ℤ) = ubins[k] then some (compressed[k]) else cur)
      binNum acc).length := by
    simp [List.length_zipWith]; omega
  rw [List.getElem?_eq_getElem hsz, List.getElem_zipWith]
  simp [hmatch]

/-- Folding expansion steps over indices none of which matches a sample's
absolute bin id leaves that sample unchanged. -/
theorem expand_foldl_miss (binNum ubins : List ℤ) (compressed : List ℚ)
    (I : List ℕ) (acc : List (Option ℚ)) (s : ℕ)
    (hacc : acc.length = binNum.length) (hs : s < binNum.length)
    (h : ∀ i ∈ I, ∀ (hi : i < ubins.length),
        ((binNum[s]).natAbs : ℤ) ≠ ubins[i]) :
    (I.foldl (expandStep binNum ubins compressed) acc)[s]? = acc[s]? := by
  induction I generalizing acc with
  | nil => rfl
  | cons i I ih =>
    rw [List.foldl_cons,
      ih _ (expandStep_length binNum ubins compressed acc i hacc)
        (fun i2 hi2 => h i2 (List.mem_cons_of_mem i hi2))]
    exact expandStep_read_miss binNum ubins compressed acc i s hacc hs
      (h i (List.mem_cons_self i I))

/-- Folding expansion steps over a set of indices containing the (unique)
match of a sample's absolute bin id writes that bin's compressed value at
the sample. -/
theorem expand_foldl_hit (binNum ubins : List ℤ) (compressed : List ℚ)
    (I : List ℕ) (acc : List (Option ℚ)) (k s : ℕ)
    (hacc : acc.length = binNum.length) (hs : s < binNum.length)
    (hnd : ubins.Nodup) (hclen : compressed.length = ubins.length)
    (hk : k < ubins.length) (hkI : k ∈ I)
    (hmatch : ((binNum[s]).natAbs : ℤ) = ubins[k]) :
    (I.foldl (expandStep binNum ubins compressed) acc)[s]?
      = some (some compressed[k]) := by
  have hothers : ∀ i2, i2 ≠ k → ∀ (hi2 : i2 < ubins.length),
      ((binNum[s]).natAbs : ℤ) ≠ ubins[i2] := by
    intro i2 hne hi2 heq
    have heq2 : ubins[i2] = ubins[k] := by rw [← heq, hmatch]
    exact hne ((List.Nodup.getElem_inj_iff hnd).mp heq2)
  induction I generalizing acc with
  | nil => exact absurd hkI (List.not_mem_nil k)
  | cons i I ih =>
    rw [List.foldl_cons]
    by_cases hik : i = k
    · subst hik
      by_cases hkI2 : i ∈ I
      · exact ih _ (expandStep_length binNum ubins compressed acc i hacc) hkI2
      · rw [expand_foldl_miss binNum ubins compressed I _ s
            (expandStep_length binNum ubins compressed acc i hacc) hs
            (fun i2 hi2 => hothers i2 (fun hcontra => hkI2 (hcontra ▸ hi2)))]
        exact expandStep_read_hit binNum ubins compressed acc i s hacc hs hk
          hclen hmatch
    · have hkI2 : k ∈ I := by
        rcases List.mem_cons.mp hkI with h | h
        · exact absurd h.symm hik
        · exact h
      exact ih _ (expandStep_length binNum ubins compressed acc i hacc) hkI2

/-- C8: for every per-unique-bin value array and every per-sample bin-id
array, bin expansion gives sample `s` the compressed value at the index
of `|binNum[s]|` in the (duplicate-free) unique-bin list, and gives the
missing marker to every sample whose absolute bin id matches no unique
bin id. -/
theorem c8_bin_expansion (ubins : List ℤ) (compressed : List ℚ)
    (binNum : List ℤ) (hnd : ubins.Nodup)
    (hclen : compressed.length = ubins.length) (s : ℕ)
    (hs : s < binNum.length) :
    (∀ k, (hk : k < ubins.length) → ((binNum[s]).natAbs : ℤ) = ubins[k] →
      (expandBins ubins compressed binNum)[s]? = some (some compressed[k]))
    ∧ (((binNum[s]).natAbs : ℤ) ∉ ubins →
      (expandBins ubins compressed binNum)[s]? = some none) := by
  constructor
  · intro k hk hmatch
    unfold expandBins
    exact expand_foldl_hit binNum ubins compressed (List.range ubins.length) _
      k s (by simp) hs hnd hclen hk (List.mem_range.mpr hk) hmatch
  · intro hnotin
    unfold expandBins
    rw [expand_foldl_miss binNum ubins compressed (List.range ubins.length) _
      s (by simp) hs
      (fun i hi hi2 heq => hnotin (heq ▸ List.getElem_mem hi2))]
    simp [List.getElem?_replicate, hs]

/-- Witness for C8: bins (1, 2) with compressed values (10, -10) and
sample bin ids (1, 1, 2, -2, 5) — sample 0 receives bin 1's value, sample
3 (negative id, absolute value 2) receives bin 2's value, and sample 4
(bin id 5, matching nothing) receives the missing marker. -/
theorem c8_bin_expansion_witness :
    ([1, 2] : List ℤ).Nodup
    ∧ (expandBins [1, 2] [10, -10] [1, 1, 2, -2, 5])[0]? = some (some (10 : ℚ))
    ∧ (expandBins [1, 2] [10, -10] [1, 1, 2, -2, 5])[3]? = some (some (-10 : ℚ))
    ∧ (expandBins [1, 2] [10, -10] [1, 1, 2, -2, 5])[4]? = some none :=
  ⟨by decide,
   (c8_bin_expansion [1, 2] [10, -10] [1, 1, 2, -2, 5] (by decide) (by decide)
     0 (by decide)).1 0 (by decide) (by decide),
   (c8_bin_expansion [1, 2] [10, -10] [1, 1, 2, -2, 5] (by decide) (by decide)
     3 (by decide)).1 1 (by decide) (by decide),
   (c8_bin_expansion [1, 2] [10, -10] [1, 1, 2, -2, 5] (by decide) (by decide)
     4 (by decide)).2 (by decide)⟩

/-- The integer floor used by `npRound` is the floor of the rational. -/
theorem qfloor_eq_floor (q : ℚ) : qfloor q = ⌊q⌋ := Rat.floor_def.symm

/-- The fractional part of a rational, written on its reduced fraction. -/
theorem fract_repr (q : ℚ) :
    q - (⌊q⌋ : ℚ) = ((q.num - ⌊q⌋ * (q.den : ℤ) : ℤ) : ℚ) / (q.den : ℚ) := by
  have hd : ((q.den : ℚ)) ≠ 0 := Nat.cast_ne_zero.mpr q.den_nz
  have hnum : q * (q.den : ℚ) = (q.num : ℚ) := Rat.mul_den_eq_num q
  rw [eq_div_iff hd]
  push_cast
  rw [sub_mul, hnum]

/-- Characterization of `npRound` in terms of the floor and the fractional part: round down
below a half, round up above a half, ties to the even neighbour. -/
theorem npRound_spec (q : ℚ) :
    npRound q = if q - (⌊q⌋ : ℚ) < 1/2 then ⌊q⌋
      else if 1/2 < q - (⌊q⌋ : ℚ) then ⌊q⌋ + 1
      else if ⌊q⌋ % 2 = 0 then ⌊q⌋ else ⌊q⌋ + 1 := by
  have hd : (0 : ℚ) < (q.den : ℚ) := by
    exact_mod_cast Nat.pos_of_ne_zero q.den_nz
  have h1 : (2 * (q.num - qfloor q * (q.den : ℤ)) < (q.den : ℤ))
      ↔ (q - (⌊q⌋ : ℚ) < 1/2) := by
    rw [qfloor_eq_floor, fract_repr, div_lt_div_iff₀ hd (by norm_num : (0:ℚ) < 2)]
    constructor <;> intro h
    · have h2 : ((2 * (q.num - ⌊q⌋ * (q.den : ℤ)) : ℤ) : ℚ) < ((q.den : ℤ) : ℚ) := by
        exact_mod_cast h
      push_cast at h2 ⊢
      linarith
    · have h2 : ((2 * (q.num - ⌊q⌋ * (q.den : ℤ)) : ℤ) : ℚ) < ((q.den : ℤ) : ℚ) := by
        push_cast at h ⊢
        linarith
      exact_mod_cast h2
  have h2 : ((q.den : ℤ) < 2 * (q.num - qfloor q * (q.den : ℤ)))
      ↔ ((1:ℚ)/2 < q - (⌊q⌋ : ℚ)) := by
    rw [qfloor_eq_floor, fract_repr, div_lt_div_iff₀ (by norm_num : (0:ℚ) < 2) hd]
    constructor <;> intro h
    · have h2 : ((q.den : ℤ) : ℚ) < ((2 * (q.num - ⌊q⌋ * (q.den : ℤ)) : ℤ) : ℚ) := by
        exact_mod_cast h
      push_cast at h2 ⊢
      linarith
    · have h2 : ((q.den : ℤ) : ℚ) < ((2 * (q.num - ⌊q⌋ * (q.den : ℤ)) : ℤ) : ℚ) := by
        push_cast at h ⊢
        linarith
      exact_mod_cast h2
  unfold npRound
  simp only [qfloor_eq_floor] at h1 h2 ⊢
  rw [if_congr h1 rfl rfl, if_congr h2 rfl rfl]

/-- The value of `npRound` lands on the floor or one above it. -/
theorem npRound_cases (q : ℚ) : npRound q = ⌊q⌋ ∨ npRound q = ⌊q⌋ + 1 := by
  rw [npRound_spec]
  split_ifs <;> simp

/-- Monotonicity: `npRound` is monotone (any round-to-nearest is, including ties to
even). -/
theorem npRound_mono {a b : ℚ} (hab : a ≤ b) : npRound a ≤ npRound b := by
  have hf : ⌊a⌋ ≤ ⌊b⌋ := Int.floor_le_floor hab
  rcases eq_or_lt_of_le hf with heq | hlt
  · by_cases h1 : a - (⌊a⌋ : ℚ) < 1/2
    · have ha : npRound a = ⌊a⌋ := by rw [npRound_spec, if_pos h1]
      rcases npRound_cases b with hb | hb <;> omega
    · by_cases h2 : (1:ℚ)/2 < b - (⌊b⌋ : ℚ)
      · have hb : npRound b = ⌊b⌋ + 1 := by
          rw [npRound_spec, if_neg (by rw [← heq] at h2 ⊢; linarith), if_pos h2]
        rcases npRound_cases a with ha | ha <;> omega
      · have hfr : a - (⌊a⌋ : ℚ) = b - (⌊b⌋ : ℚ) := by
          have hcast : ((⌊a⌋ : ℚ)) = (⌊b⌋ : ℚ) := by exact_mod_cast heq
          have hle : a - (⌊a⌋ : ℚ) ≤ b - (⌊b⌋ : ℚ) := by rw [← hcast]; linarith
          have hge : (1:ℚ)/2 ≤ a - (⌊a⌋ : ℚ) := by linarith
          have hble : b - (⌊b⌋ : ℚ) ≤ 1/2 := by linarith
          linarith
        have hab2 : a = b := by
          have hcast : ((⌊a⌋ : ℚ)) = (⌊b⌋ : ℚ) := by exact_mod_cast heq
          linarith [hfr, hcast]
        rw [hab2]
  · rcases npRound_cases a with ha | ha <;> rcases npRound_cases b with hb | hb <;>
      omega

/-- Nonnegativity: `npRound` of a nonnegative rational is nonnegative. -/
theorem npRound_nonneg {q : ℚ} (h : 0 ≤ q) : 0 ≤ npRound q := by
  have h0 : npRound 0 = 0 := by decide
  have := npRound_mono h
  omega

/-- A left fold by `min` is below its initial value. -/
theorem foldl_min_le_init (xs : List ℚ) (a : ℚ) : xs.foldl min a ≤ a := by
  induction xs generalizing a with
  | nil => exact le_refl a
  | cons x xs ih => exact le_trans (ih (min a x)) (min_le_left a x)

/-- A left fold by `min` is below every list element. -/
theorem foldl_min_le_mem (xs : List ℚ) (a x : ℚ) (hx : x ∈ xs) :
    xs.foldl min a ≤ x := by
  induction xs generalizing a with
  | nil => cases hx
  | cons y ys ih =>
    rcases List.mem_cons.mp hx with h | h
    · subst h
      exact le_trans (foldl_min_le_init ys (min a x)) (min_le_right a x)
    · exact ih _ h

/-- The minimum `listMinQ` bounds every element from below. -/
theorem listMinQ_le (l : List ℚ) (x : ℚ) (hx : x ∈ l) : listMinQ l ≤ x := by
  cases l with
  | nil => cases hx
  | cons y ys =>
    rcases List.mem_cons.mp hx with h | h
    · subst h
      exact foldl_min_le_init ys x
    · exact foldl_min_le_mem ys y x h

/-- A left fold by `max` is above its initial value. -/
theorem init_le_foldl_max (xs : List ℚ) (a : ℚ) : a ≤ xs.foldl max a := by
  induction xs generalizing a with
  | nil => exact le_refl a
  | cons x xs ih => exact le_trans (le_max_left a x) (ih (max a x))

/-- A left fold by `max` is above every list element. -/
theorem mem_le_foldl_max (xs : List ℚ) (a x : ℚ) (hx : x ∈ xs) :
    x ≤ xs.foldl max a := by
  induction xs generalizing a with
  | nil => cases hx
  | cons y ys ih =>
    rcases List.mem_cons.mp hx with h | h
    · subst h
      exact le_trans (le_max_right a x) (init_le_foldl_max ys (max a x))
    · exact ih _ h

/-- The maximum `listMaxQ` bounds every element from above. -/
theorem le_listMaxQ (l : List ℚ) (x : ℚ) (hx : x ∈ l) : x ≤ listMaxQ l := by
  cases l with
  | nil => cases hx
  | cons y ys =>
    rcases List.mem_cons.mp hx with h | h
    · subst h
      exact init_le_foldl_max ys x
    · exact mem_le_foldl_max ys y x h

/-- Every coordinate of the list maps to a pixel index inside the grid. -/
theorem pixIndex_bounds (C : List ℚ) (P : ℚ) (hP : 0 < P) (c : ℚ)
    (hc : c ∈ C) : 0 ≤ pixIndex C P c ∧ pixIndex C P c < npixels C P := by
  have hmin : listMinQ C ≤ c := listMinQ_le C c hc
  have hmax : c ≤ listMaxQ C := le_listMaxQ C c hc
  constructor
  · exact npRound_nonneg (div_nonneg (by linarith) hP.le)
  · unfold pixIndex npixels
    have harg : (c - (listMinQ C - 6)) / P
        ≤ (listMaxQ C + 6 - (listMinQ C - 6)) / P := by
      gcongr
      linarith
    have := npRound_mono harg
    omega

/-- C9: with pixel size P > 0, grid resolution `round(span/P)+1` per axis
over the coordinate extent padded by 6 units on each side, every sample's
pixel index `(round((X[i]-xmin)/P), round((Y[i]-ymin)/P))` lies within
`[0, Nx) × [0, Ny)`, so the rasterizer's array assignment is in bounds;
and a single-sample input rasterizes to an image whose only non-missing
cell is at that sample's predicted index. -/
theorem c9_rasterizer_in_bounds (X Y : List ℚ) (P : ℚ) (hP : 0 < P) :
    (∀ x ∈ X, 0 ≤ pixIndex X P x ∧ pixIndex X P x < npixels X P)
    ∧ (∀ y ∈ Y, 0 ≤ pixIndex Y P y ∧ pixIndex Y P y < npixels Y P)
    ∧ (∀ (x0 y0 v : ℚ) (a b : ℤ),
        rasterize [x0] [y0] [some v] P a b
          = if a = npRound (6/P) ∧ b = npRound (6/P) then some v else none) := by
  refine ⟨fun x hx => pixIndex_bounds X P hP x hx,
    fun y hy => pixIndex_bounds Y P hP y hy, ?_⟩
  intro x0 y0 v a b
  have h1 : pixIndex [x0] P x0 = npRound (6/P) := by
    unfold pixIndex listMinQ
    simp only [List.foldl_nil]
    congr 1
    ring
  have h2 : pixIndex [y0] P y0 = npRound (6/P) := by
    unfold pixIndex listMinQ
    simp only [List.foldl_nil]
    congr 1
    ring
  show (if a = pixIndex [x0] P x0 ∧ b = pixIndex [y0] P y0 then some v
        else none) = _
  rw [h1, h2]

/-- Witness for C9 at the single sample (3, 0) with value 5 and pixel
size 1: the index is in bounds, and the rasterized image holds the value
exactly at the predicted cell (6, 6) and is missing next to it. -/
theorem c9_rasterizer_in_bounds_witness :
    (0 : ℚ) < 1
    ∧ (0 ≤ pixIndex [3] 1 3 ∧ pixIndex [3] 1 3 < npixels [3] 1)
    ∧ rasterize [3] [0] [some 5] 1 (npRound (6/1)) (npRound (6/1)) = some 5
    ∧ rasterize [3] [0] [some 5] 1 (npRound (6/1) + 1) (npRound (6/1)) = none := by
  have h := c9_rasterizer_in_bounds [3] [0] 1 (by norm_num)
  refine ⟨by norm_num, h.1 3 (by norm_num), ?_, ?_⟩
  · rw [h.2.2 3 0 5 (npRound (6/1)) (npRound (6/1))]
    simp
  · rw [h.2.2 3 0 5 (npRound (6/1) + 1) (npRound (6/1))]
    simp

/-- Mapping a shift under the NaN marker commutes with collecting the
valid values. -/
theorem filterMap_id_map_sub (l : List (Option ℚ)) (m : ℚ) :
    (l.map (Option.map (fun x => x - m))).filterMap id
      = (l.filterMap id).map (fun x => x - m) := by
  induction l with
  | nil => rfl
  | cons x xs ih => cases x <;> simp [ih]

/-- Sorting commutes with shifting every element by the same amount. -/
theorem insertionSort_map_sub (v : List ℚ) (m : ℚ) :
    List.insertionSort (· ≤ ·) (v.map (fun x => x - m))
      = (List.insertionSort (· ≤ ·) v).map (fun x => x - m) := by
  apply @List.eq_of_perm_of_sorted ℚ (· ≤ · : ℚ → ℚ → Prop) _ _ _
  · exact (List.perm_insertionSort _ _).trans
      ((List.perm_insertionSort (· ≤ ·) v).map _).symm
  · exact List.sorted_insertionSort _ _
  · exact List.Pairwise.map _ (fun a b hab => sub_le_sub_right hab m)
      (List.sorted_insertionSort (· ≤ ·) v)

/-- The sorted valid values of a shifted array are the shifted sorted
valid values. -/
theorem sortedValid_map_sub (l : List (Option ℚ)) (m : ℚ) :
    sortedValid (l.map (Option.map (fun x => x - m)))
      = (sortedValid l).map (fun x => x - m) := by
  unfold sortedValid
  rw [filterMap_id_map_sub, insertionSort_map_sub]

/-- The NaN-ignoring median commutes with shifting every value. -/
theorem nanmedianQ_sub (l : List (Option ℚ)) (m : ℚ) :
    nanmedianQ (l.map (Option.map (fun x => x - m)))
      = (nanmedianQ l).map (fun x => x - m) := by
  unfold nanmedianQ
  rw [sortedValid_map_sub, List.length_map]
  by_cases h0 : (sortedValid l).length = 0
  · simp [h0]
  · rw [if_neg h0, if_neg h0]
    by_cases hodd : (sortedValid l).length % 2 = 1
    · rw [if_pos hodd, if_pos hodd, List.getElem?_map]
    · rw [if_neg hodd, if_neg hodd]
      have hlen : 0 < (sortedValid l).length := Nat.pos_of_ne_zero h0
      have hi2 : (sortedValid l).length / 2 < (sortedValid l).length :=
        Nat.div_lt_self hlen (by norm_num)
      have hi1 : (sortedValid l).length / 2 - 1 < (sortedValid l).length := by
        omega
      rw [List.getElem?_map, List.getElem?_map,
        List.getElem?_eq_getElem hi1, List.getElem?_eq_getElem hi2]
      show some _ = some _
      congr 1
      ring

/-- Recentering a column by its own NaN-ignoring median makes that median
zero. -/
theorem recenterVel1D_median_zero (v : List (Option ℚ)) (m : ℚ)
    (hm : nanmedianQ v = some m) : nanmedianQ (recenterVel1D v) = some 0 := by
  unfold recenterVel1D
  rw [hm, nanmedianQ_sub, hm]
  show some (m - m) = some 0
  congr 1
  ring

/-- Recentering the velocity matrix by its own NaN-ignoring median makes
that median zero. -/
theorem recenterVel2D_median_zero (Vel : List (List (Option ℚ))) (m : ℚ)
    (hm : nanmedianQ Vel.flatten = some m) :
    nanmedianQ (recenterVel2D Vel).flatten = some 0 := by
  unfold recenterVel2D
  rw [hm]
  rw [show (Vel.map (fun row => row.map (Option.map (fun x => x - m)))).flatten
      = Vel.flatten.map (Option.map (fun x => x - m)) from
    (List.map_flatten _ Vel).symm]
  rw [nanmedianQ_sub, hm]
  show some (m - m) = some 0
  congr 1
  ring

/-- C10: after quality filtering, the velocity quantity — and only the
velocity quantity — is recentered by subtracting its own cross-sample
median computed ignoring missing values, so whenever at least one
velocity is valid the median of the displayed valid velocities is zero;
dispersion, flux and amplitude pass through the recentering stage
unchanged, in both renderers. -/
theorem c10_velocity_recentering (Vel Sigma Flux Ampl : List (List (Option ℚ)))
    (v0 c1 c2 c3 : List (Option ℚ))
    (hg : (nanmedianQ Vel.flatten).isSome = true)
    (hk : (nanmedianQ v0).isSome = true) :
    (gandalfRecenterStage Vel Sigma Flux Ampl).2 = (Sigma, Flux, Ampl)
    ∧ nanmedianQ ((gandalfRecenterStage Vel Sigma Flux Ampl).1).flatten = some 0
    ∧ (kinRecenterStage v0 c1 c2 c3).2 = (c1, c2, c3)
    ∧ nanmedianQ ((kinRecenterStage v0 c1 c2 c3).1) = some 0 := by
  obtain ⟨mg, hmg⟩ := Option.isSome_iff_exists.mp hg
  obtain ⟨mk, hmk⟩ := Option.isSome_iff_exists.mp hk
  exact ⟨rfl, recenterVel2D_median_zero Vel mg hmg, rfl,
    recenterVel1D_median_zero v0 mk hmk⟩

/-- Witness for C10 at concrete data: a velocity matrix with entries 1 and
3 (median defined) and a kinematics velocity column (1, 3, NaN). -/
theorem c10_velocity_recentering_witness :
    (nanmedianQ ([[some 1], [some 3]] : List (List (Option ℚ))).flatten).isSome
        = true
    ∧ nanmedianQ ((gandalfRecenterStage [[some 1], [some 3]] [[some 2]]
        [[some 2]] [[some 2]]).1).flatten = some 0
    ∧ nanmedianQ ((kinRecenterStage [some 1, some 3, none] [some 2] [some 2]
        [some 2]).1) = some 0 := by
  have h := c10_velocity_recentering [[some 1], [some 3]] [[some 2]]
    [[some 2]] [[some 2]] [some 1, some 3, none] [some 2] [some 2] [some 2]
    (by decide) (by decide)
  exact ⟨by decide, h.2.1, h.2.2.2⟩
